import Mathlib

/-!
# Verification of the weather-agent tool-orchestration core

Shallow embedding of the MCP tool-orchestration core of this repository
(`src/app.py`, class `MCPClient` and the module-level `send_user_message`).
`src/test2.py` contains a near-duplicate single-round variant of the same
class; the Flask application `src/app.py` is the implementation the
orchestration loop of the specification describes, and it is the one
embedded here.

Modelling conventions:
* Python dicts (`_servers`, `_tool_to_server_map`) are modelled as
  association lists with cons-on-assignment and first-match lookup, which is
  observationally the later-assignment-wins lookup semantics of the dict.
* The OpenAI chat client is an external boundary; a run is parameterised by a
  finite script of model turns (`Except` because a model call may raise).
  Exhausting the script before the loop exits is reported as
  `ChatResult.outOfTurns`: the Python loop would issue yet another model call.
* `session.call_tool` is an external boundary; it is modelled by a stateful,
  fallible execution function keyed by the owning server id (the session
  object is in one-to-one correspondence with its server id).
* `json.loads` on the raw tool-argument text is an external boundary; a
  `RawArgs` value records the raw text together with the outcome `json.loads`
  has on it, and `parse_tool_args` embeds the try/except block of
  `app.py` lines 141-149.
* The `finally` block of `send_user_message` (`app.py` lines 257-259) is
  modelled by the `cleaned` field of the outcome, set on every terminating
  path exactly where Python runs `mcp_client.cleanup()`.
-/

/-- A tool descriptor as returned by `session.list_tools()` (name,
description, inputSchema); only the name is consulted by the core. -/
structure Tool where
  name : String
  description : String
  inputSchema : String
  deriving DecidableEq, Repr

/-- The raw argument payload of one model-issued tool call, classified by the
outcome `json.loads` has on it (`app.py` lines 141-149).  Each constructor
carries the raw text recorded verbatim in the assistant message. -/
inductive RawArgs where
  /-- The field `tool.function.arguments` is falsy (empty string / None):
  `json.loads` is short-circuited and the empty object is used. -/
  | falsy : RawArgs
  /-- Here `json.loads` raises `JSONDecodeError` or `TypeError` on this text. -/
  | malformed (text : String) : RawArgs
  /-- Here `json.loads` returns `None` (the text is the JSON literal null). -/
  | jsonNull (text : String) : RawArgs
  /-- Here `json.loads` returns a non-dict value (array, number, string,
  bool). -/
  | jsonNonDict (text : String) : RawArgs
  /-- Here `json.loads` returns a JSON object, modelled as an association
  list of key and value-text. -/
  | jsonDict (text : String) (fields : List (String × String)) : RawArgs
  deriving DecidableEq, Repr

/-- The raw text of the argument payload, as stored verbatim in the appended
assistant message (falsy payloads are recorded as the empty string). -/
def RawArgs.rawText : RawArgs → String
  | .falsy => ""
  | .malformed t => t
  | .jsonNull t => t
  | .jsonNonDict t => t
  | .jsonDict t _ => t

/-- One entry of `response.choices[0].message.tool_calls`: id, function name
and raw argument payload. -/
structure ToolCall where
  id : String
  name : String
  arguments : RawArgs
  deriving DecidableEq, Repr

/-- The tool-call record serialised into the appended assistant message
(`app.py` lines 151-161): id, name, and the raw argument text verbatim. -/
structure RecordedCall where
  id : String
  name : String
  arguments : String
  deriving DecidableEq, Repr

/-- The serialisation of a `ToolCall` into the assistant message. -/
def ToolCall.record (tc : ToolCall) : RecordedCall :=
  { id := tc.id, name := tc.name, arguments := tc.arguments.rawText }

/-- One message of the conversation list handled by `chatWithTools` and
`send_user_message` (the `role` discriminated dicts of the source). -/
inductive Message where
  | system (content : String)
  | user (content : String)
  | assistantContent (content : String)
  | assistantToolCalls (tool_calls : List RecordedCall)
  | tool (tool_call_id : String) (content : String)
  deriving DecidableEq, Repr

/-- One assistant turn returned by a model call:
`response.choices[0].message`, with `tool_calls` normalised to a list (a
`None` field is the empty list, matching Python truthiness at line 136). -/
structure AssistantTurn where
  tool_calls : List ToolCall
  content : String
  deriving DecidableEq, Repr

/-- The client state of `MCPClient`: `_servers` (server id to the tool list
obtained from `list_tools`; the live session object is modelled by the server
id itself) and `_tool_to_server_map` (tool name to server id).  Both dicts are
association lists with first-match lookup. -/
structure MCPClient where
  servers : List (String × List Tool)
  tool_to_server_map : List (String × String)
  deriving DecidableEq, Repr

/-- A freshly constructed `MCPClient()` (both dicts empty). -/
def MCPClient.empty : MCPClient := { servers := [], tool_to_server_map := [] }

/-- The method `MCPClient._register_server` (`app.py` lines 77-98): store
the tool list of the server under its id and point every listed tool name at
this server.
Python dict assignment is modelled by consing the new binding in front, with
first-match lookup. -/
def register_server (client : MCPClient) (server_id : String)
    (tools : List Tool) : MCPClient :=
  { servers := (server_id, tools) :: client.servers,
    tool_to_server_map :=
      tools.foldl (fun m tool => (tool.name, server_id) :: m)
        client.tool_to_server_map }

/-- Lookup in the reverse index `_tool_to_server_map` (the
`tool_name in self._tool_to_server_map` test plus the subsequent indexing at
`app.py` lines 164-165). -/
def resolveTool (client : MCPClient) (tool_name : String) : Option String :=
  client.tool_to_server_map.lookup tool_name

/-- The argument-parsing block of `chatWithTools` (`app.py` lines 141-149):
`json.loads` wrapped in try/except, with `None` and non-dict results also
replaced by the empty object. -/
def parse_tool_args : RawArgs → List (String × String)
  | .falsy => []
  | .malformed _ => []
  | .jsonNull _ => []
  | .jsonNonDict _ => []
  | .jsonDict _ fields => fields

/-- The tool-execution boundary: `session.call_tool(tool_name, arguments)`
on the session of server `server_id`, threading a provider-side state of
type `σ` and possibly raising (the exception text is returned on error). -/
def Exec (σ : Type) : Type :=
  String → String → List (String × String) → σ → Except String (String × σ)

/-- An execution boundary built from a total function: tool calls that never
raise. -/
def totalExec {σ : Type}
    (f : String → String → List (String × String) → σ → String × σ) :
    Exec σ :=
  fun server_id name args st => Except.ok (f server_id name args st)

/-- The body of the per-tool-call `for` loop of `chatWithTools`
(`app.py` lines 137-176): parse the arguments leniently, append the
assistant message recording the call verbatim, and, when the reverse index
resolves the tool name, execute the call on the session of the owning
server and
append the tool-result message; an unresolved name leaves the conversation
and provider state untouched beyond the assistant message. -/
def dispatch_tool_call {σ : Type} (client : MCPClient) (exec : Exec σ)
    (msgs : List Message) (st : σ) (tc : ToolCall) :
    Except String (List Message × σ) :=
  let tool_args := parse_tool_args tc.arguments
  let msgs1 := msgs ++ [Message.assistantToolCalls [tc.record]]
  match resolveTool client tc.name with
  | some server_id =>
      match exec server_id tc.name tool_args st with
      | .ok (result, st2) => .ok (msgs1 ++ [Message.tool tc.id result], st2)
      | .error e => .error e
  | none => .ok (msgs1, st)

/-- The full `for tool in response.choices[0].message.tool_calls` loop:
calls are dispatched strictly one at a time, in the order the model emitted
them, each seeing the conversation and provider state left by its
predecessor; a raise aborts the loop and propagates. -/
def dispatch_turn {σ : Type} (client : MCPClient) (exec : Exec σ) :
    List ToolCall → List Message → σ → Except String (List Message × σ)
  | [], msgs, st => .ok (msgs, st)
  | tc :: rest, msgs, st =>
      match dispatch_tool_call client exec msgs st tc with
      | .ok (msgs1, st1) => dispatch_turn client exec rest msgs1 st1
      | .error e => .error e

/-- Outcome of the `while True` orchestration loop. -/
inductive ChatResult where
  /-- The loop broke out of `while True` with `model_response` returned; the
  second component is the conversation list as mutated by the loop. -/
  | ok (text : String) (messages : List Message) : ChatResult
  /-- An exception propagated out of the loop (model call raised, tool call
  raised, or no servers were connected). -/
  | err (e : String) : ChatResult
  /-- The scripted model turns were exhausted while `hasToolCall` was still
  true: the Python loop would issue yet another model call, so the run does
  not terminate within the script. -/
  | outOfTurns : ChatResult
  deriving DecidableEq, Repr

/-- The `while True` loop of `chatWithTools` (`app.py` lines 121-186), driven
by the finite script of model turns: each iteration consumes exactly one
model call; a turn with a non-empty `tool_calls` list is dispatched and the
loop re-enters, a turn without tool calls appends the assistant content and
breaks. -/
def chat_loop {σ : Type} (client : MCPClient) (exec : Exec σ) :
    List (Except String AssistantTurn) → List Message → σ → ChatResult
  | [], _, _ => .outOfTurns
  | turn :: rest, msgs, st =>
      match turn with
      | .error e => .err e
      | .ok t =>
          if t.tool_calls.isEmpty then
            .ok t.content (msgs ++ [Message.assistantContent t.content])
          else
            match dispatch_turn client exec t.tool_calls msgs st with
            | .ok (msgs1, st1) => chat_loop client exec rest msgs1 st1
            | .error e => .err e

/-- The method `MCPClient.chatWithTools` (`app.py` lines 100-188): raise `ValueError`
when no server is connected, otherwise run the orchestration loop.  (The
merged tool catalog built at lines 108-119 is sent to the model; under a
scripted model client it does not influence the embedded control flow.) -/
def chatWithTools {σ : Type} (client : MCPClient) (exec : Exec σ)
    (script : List (Except String AssistantTurn)) (st : σ)
    (messages : List Message) : ChatResult :=
  if client.servers.isEmpty then
    .err "No MCP servers connected. Connect to at least one server first."
  else chat_loop client exec script messages st

/-- The ids of the tool-role (tool-result) messages of a conversation, in
order of appearance. -/
def toolResultIds (msgs : List Message) : List String :=
  msgs.filterMap (fun m =>
    match m with
    | Message.tool tool_call_id _ => some tool_call_id
    | _ => none)

/-- The system message installed on the first invocation of
`send_user_message` (`app.py` lines 208-212). -/
def gettingReadyInstruction : String :=
  "You are in charge of helping the user get ready to leave the house. Use the get-weather tool to check the current weather for the current city. Check the air quality index to see if its suitable to go outside today. Then make recommendations on what the user should do before going outside. Remove the emojis. Display the result in plain text instead of Markdown."

/-- The error text `send_user_message` produces in its `except` block
(`app.py` line 250). -/
def error_response (e : String) : String := "Error processing message: " ++ e

/-- The global state the `send_user_message` flow reads and writes:
`message_history` and `latest_model_response` (`app.py` lines 195-197). -/
structure AppState where
  message_history : List Message
  latest_model_response : String
  deriving DecidableEq, Repr

/-- The external boundary of one `send_user_message` invocation:
the outcome of `connect_stdio_server("weather", ...)` (on success, the tool
list the server reports to `_register_server`), the scripted model turns, and
the tool-execution boundary with its initial provider-side state. -/
structure SendEnv (σ : Type) where
  connect : Except String (List Tool)
  script : List (Except String AssistantTurn)
  exec : Exec σ
  execInit : σ

/-- The observable outcome of one terminating `send_user_message` invocation:
the returned string, the global state after the invocation, and whether the
`finally` block ran `mcp_client.cleanup()` (closing every provider session
opened by this invocation) before returning. -/
structure SendOutcome where
  response : String
  state : AppState
  cleaned : Bool
  deriving DecidableEq, Repr

/-- The history as it stands when `chatWithTools` is entered: the system
message is installed first when the history is empty, then the new user
message is appended (`app.py` lines 207-224). -/
def pre_history (st : AppState) (user_message : String) : List Message :=
  (if st.message_history.isEmpty
    then st.message_history ++ [Message.system gettingReadyInstruction]
    else st.message_history)
  ++ [Message.user user_message]

/-- The function `send_user_message` (`app.py` lines 200-259): append the system message
(first invocation) and the user message, connect the `"weather"` server and
register it on a fresh `MCPClient`, run `chatWithTools` on a copy of the
history (the mutations of the copy are discarded — only the returned string is
used), then append the assistant response; any exception from connection,
model calls or tool dispatch is caught and turned into an
`Error processing message:` response that is also appended; the `finally`
block (modelled by `cleaned`) runs on every terminating path.  `none` models
the invocation not terminating (the loop ran out of scripted model turns). -/
def send_user_message {σ : Type} (env : SendEnv σ) (user_message : String)
    (st : AppState) : Option SendOutcome :=
  let hist1 := pre_history st user_message
  match env.connect with
  | .error e =>
      some { response := error_response e,
             state := { message_history :=
                          hist1 ++ [Message.assistantContent (error_response e)],
                        latest_model_response := error_response e },
             cleaned := true }
  | .ok tools =>
      match chatWithTools (register_server MCPClient.empty "weather" tools)
          env.exec env.script env.execInit hist1 with
      | .outOfTurns => none
      | .err e =>
          some { response := error_response e,
                 state := { message_history :=
                              hist1 ++ [Message.assistantContent (error_response e)],
                            latest_model_response := error_response e },
                 cleaned := true }
      | .ok text _msgs =>
          some { response := text,
                 state := { message_history :=
                              hist1 ++ [Message.assistantContent text],
                            latest_model_response := text },
                 cleaned := true }

/-! ## Concrete fixtures used by the witness theorems -/

/-- Fixture: a weather tool owned by server `a`. -/
def egWeatherTool : Tool :=
  { name := "get-weather", description := "current weather",
    inputSchema := "city" }

/-- Fixture: an air-quality tool owned by server `b`. -/
def egAqiTool : Tool :=
  { name := "get-aqi", description := "air quality index",
    inputSchema := "city" }

/-- Fixture: a client with two registered servers owning one tool each. -/
def egClient : MCPClient :=
  register_server (register_server MCPClient.empty "a" [egWeatherTool])
    "b" [egAqiTool]

/-- Fixture: a deterministic stateful tool behaviour; the result names the
session and tool, the state counts completed calls. -/
def egExecFun :
    String → String → List (String × String) → Nat → String × Nat :=
  fun server_id name _args n => (server_id ++ ":" ++ name, n + 1)

/-- Fixture: a deterministic stateful execution boundary that never raises. -/
def egExec : Exec Nat := totalExec egExecFun

/-- Fixture: a call to the weather tool. -/
def egCallWeather : ToolCall :=
  { id := "call_1", name := "get-weather",
    arguments := RawArgs.jsonDict "obj" [("city", "Seattle")] }

/-- Fixture: a call to the air-quality tool. -/
def egCallAqi : ToolCall :=
  { id := "call_2", name := "get-aqi", arguments := RawArgs.falsy }

/-- Fixture: a call to a tool name no registered server exposes. -/
def egCallUnknown : ToolCall :=
  { id := "call_3", name := "no-such-tool",
    arguments := RawArgs.jsonDict "obj" [] }

/-- Fixture: a `send_user_message` boundary whose server connection raises. -/
def egFailEnv : SendEnv Nat :=
  { connect := Except.error "boom", script := [], exec := egExec,
    execInit := 0 }

/-- Fixture: a `send_user_message` boundary with a healthy weather server,
one tool-requesting model turn and one final plain turn. -/
def egOkEnv : SendEnv Nat :=
  { connect := Except.ok [egWeatherTool, egAqiTool],
    script := [Except.ok { tool_calls := [egCallWeather], content := "" },
               Except.ok { tool_calls := [], content := "final answer" }],
    exec := egExec, execInit := 0 }

/-! ## Registry theorems (C7) -/

/-- Every binding the registration fold pushes carries the registering
id of the registering server, so a name already bound to that id stays
bound to it. -/
theorem lookup_foldl_register_stable (tools : List Tool) (server_id : String)
    (m : List (String × String)) (name : String)
    (h : m.lookup name = some server_id) :
    (tools.foldl (fun m tool => (tool.name, server_id) :: m) m).lookup name
      = some server_id := by
  induction tools generalizing m with
  | nil => exact h
  | cons t rest ih =>
    simp only [List.foldl_cons]
    apply ih
    by_cases hname : name = t.name
    · simp [List.lookup, hname]
    · have : (name == t.name) = false := by
        simp only [beq_eq_false_iff_ne, ne_eq]
        exact hname
      simp [List.lookup, this, h]

/-- Applying `lookup` to an association list produced by folding cons over `tools`:
a name listed by the registration resolves to the registering server. -/
theorem lookup_foldl_register (tools : List Tool) (server_id : String)
    (m : List (String × String)) (name : String)
    (h : name ∈ tools.map Tool.name) :
    (tools.foldl (fun m tool => (tool.name, server_id) :: m) m).lookup name
      = some server_id := by
  induction tools generalizing m with
  | nil => simp at h
  | cons t rest ih =>
    simp only [List.foldl_cons]
    by_cases hname : name = t.name
    · apply lookup_foldl_register_stable
      simp [List.lookup, hname]
    · have : name ∈ rest.map Tool.name := by
        simp only [List.map_cons, List.mem_cons] at h
        tauto
      exact ih ((t.name, server_id) :: m) this

/-- A name not listed by a registration resolves as before it. -/
theorem lookup_foldl_register_notmem (tools : List Tool) (server_id : String)
    (m : List (String × String)) (name : String)
    (h : name ∉ tools.map Tool.name) :
    (tools.foldl (fun m tool => (tool.name, server_id) :: m) m).lookup name
      = m.lookup name := by
  induction tools generalizing m with
  | nil => rfl
  | cons t rest ih =>
    simp only [List.map_cons, List.mem_cons, not_or] at h
    simp only [List.foldl_cons]
    rw [ih _ h.2]
    have : (name == t.name) = false := by
      simp only [beq_eq_false_iff_ne, ne_eq]
      exact h.1
    simp [List.lookup, this]

/-- C7: after any further registration over any prior registry state, a tool
name listed by the later registration resolves to the later server — the
later registration overwrites any earlier binding of the same name, the
reverse index still maps the name to exactly one server id, and no error is
raised (`register_server` is total). -/
theorem resolve_after_reregister (client : MCPClient)
    (p1 p2 : String) (tools1 tools2 : List Tool) (name : String)
    (h : name ∈ tools2.map Tool.name) :
    resolveTool (register_server (register_server client p1 tools1) p2 tools2)
      name = some p2 := by
  unfold resolveTool register_server
  exact lookup_foldl_register tools2 p2 _ name h

/-- C7 witness: registering provider `b` after provider `a`, both exposing
`get-weather`, makes `get-weather` resolve to `b`. -/
theorem resolve_after_reregister_witness :
    resolveTool
      (register_server
        (register_server MCPClient.empty "a"
          [{ name := "get-weather", description := "d1", inputSchema := "s1" }])
        "b"
        [{ name := "get-weather", description := "d2", inputSchema := "s2" }])
      "get-weather" = some "b" :=
  resolve_after_reregister MCPClient.empty "a" "b"
    [{ name := "get-weather", description := "d1", inputSchema := "s1" }]
    [{ name := "get-weather", description := "d2", inputSchema := "s2" }]
    "get-weather" (by decide)

/-! ## Lenient argument parsing (C2) -/

/-- C2: a tool call whose argument payload is malformed (not parseable as
JSON) is dispatched exactly as the same call whose payload is the well-formed
empty object with the same raw text: the tool is still called (with empty
arguments), the turn is not aborted, and no error arises from the malformed
payload. -/
theorem malformed_args_dispatch_as_empty {σ : Type} (client : MCPClient)
    (exec : Exec σ) (msgs : List Message) (st : σ) (tc : ToolCall)
    (s : String) (h : tc.arguments = RawArgs.malformed s) :
    dispatch_tool_call client exec msgs st tc
      = dispatch_tool_call client exec msgs st
          { tc with arguments := RawArgs.jsonDict s [] } := by
  unfold dispatch_tool_call ToolCall.record
  rw [h]
  rfl

/-- C2 witness: a concrete malformed-payload call against a registry owning
the tool dispatches as the empty-object call with the same raw text. -/
theorem malformed_args_dispatch_as_empty_witness :
    (⟨"call_9", "get-weather", RawArgs.malformed "not json"⟩ : ToolCall).arguments
        = RawArgs.malformed "not json"
    ∧ dispatch_tool_call egClient egExec [] (0 : Nat)
        ⟨"call_9", "get-weather", RawArgs.malformed "not json"⟩
      = dispatch_tool_call egClient egExec [] (0 : Nat)
          { (⟨"call_9", "get-weather", RawArgs.malformed "not json"⟩ : ToolCall)
              with arguments := RawArgs.jsonDict "not json" [] } :=
  ⟨rfl,
    malformed_args_dispatch_as_empty egClient egExec [] (0 : Nat)
      ⟨"call_9", "get-weather", RawArgs.malformed "not json"⟩
      "not json" rfl⟩

/-! ## Dispatch helpers -/

/-- Dispatch of one call whose name resolves: the assistant message and the
tool-result message are appended around the provider execution. -/
theorem dispatch_tool_call_resolved {σ : Type} (client : MCPClient)
    (exec : Exec σ) (msgs : List Message) (st : σ) (tc : ToolCall)
    (sid : String) (hsid : resolveTool client tc.name = some sid) :
    dispatch_tool_call client exec msgs st tc
      = match exec sid tc.name (parse_tool_args tc.arguments) st with
        | .ok (result, st2) =>
            .ok (msgs ++ [Message.assistantToolCalls [tc.record],
                          Message.tool tc.id result], st2)
        | .error e => .error e := by
  simp only [dispatch_tool_call, hsid]
  cases hexec : exec sid tc.name (parse_tool_args tc.arguments) st with
  | ok p =>
    obtain ⟨result, st2⟩ := p
    simp
  | error e => rfl

/-- Dispatch of one call whose name does not resolve: only the assistant
message is appended, the provider state is untouched, no error is raised. -/
theorem dispatch_tool_call_unresolved {σ : Type} (client : MCPClient)
    (exec : Exec σ) (msgs : List Message) (st : σ) (tc : ToolCall)
    (hnone : resolveTool client tc.name = none) :
    dispatch_tool_call client exec msgs st tc
      = .ok (msgs ++ [Message.assistantToolCalls [tc.record]], st) := by
  unfold dispatch_tool_call
  rw [hnone]

/-! ## Sequential dispatch order (C5) -/

/-- C5: when a model turn carries any number of tool calls, all of whose
names resolve (possibly to different providers), and the `for` loop completes,
the tool-result messages added to the conversation carry exactly the call ids
in the order the model emitted the calls — one result per call, dispatched
one at a time left to right. -/
theorem dispatch_turn_tool_order {σ : Type} (client : MCPClient)
    (exec : Exec σ) (calls : List ToolCall) (msgs msgs2 : List Message)
    (st st2 : σ)
    (hres : ∀ c ∈ calls, (resolveTool client c.name).isSome)
    (h : dispatch_turn client exec calls msgs st = Except.ok (msgs2, st2)) :
    toolResultIds msgs2 = toolResultIds msgs ++ calls.map ToolCall.id := by
  induction calls generalizing msgs st with
  | nil =>
    simp only [dispatch_turn, Except.ok.injEq, Prod.mk.injEq] at h
    simp [h.1]
  | cons tc rest ih =>
    obtain ⟨sid, hsid⟩ := Option.isSome_iff_exists.mp
      (hres tc (List.mem_cons_self tc rest))
    simp only [dispatch_turn] at h
    rw [dispatch_tool_call_resolved client exec msgs st tc sid hsid] at h
    cases hexec : exec sid tc.name (parse_tool_args tc.arguments) st with
    | error e =>
      rw [hexec] at h
      simp at h
    | ok p =>
      obtain ⟨result, st1⟩ := p
      rw [hexec] at h
      have hrec := ih (msgs ++ [Message.assistantToolCalls [tc.record],
        Message.tool tc.id result]) st1
        (fun c hc => hres c (List.mem_cons_of_mem tc hc)) h
      rw [hrec]
      simp [toolResultIds, List.filterMap_append]

/-- C5 witness: two calls owned by two different providers produce tool-result
messages in exactly the order the calls were emitted. -/
theorem dispatch_turn_tool_order_witness :
    (∀ c ∈ [egCallWeather, egCallAqi], (resolveTool egClient c.name).isSome)
    ∧ toolResultIds
        [Message.assistantToolCalls [⟨"call_1", "get-weather", "obj"⟩],
         Message.tool "call_1" "a:get-weather",
         Message.assistantToolCalls [⟨"call_2", "get-aqi", ""⟩],
         Message.tool "call_2" "b:get-aqi"]
      = toolResultIds []
          ++ [egCallWeather, egCallAqi].map ToolCall.id :=
  ⟨by decide,
    dispatch_turn_tool_order egClient egExec [egCallWeather, egCallAqi] []
      [Message.assistantToolCalls [⟨"call_1", "get-weather", "obj"⟩],
       Message.tool "call_1" "a:get-weather",
       Message.assistantToolCalls [⟨"call_2", "get-aqi", ""⟩],
       Message.tool "call_2" "b:get-aqi"]
      (0 : Nat) (2 : Nat) (by decide) (by rfl)⟩

/-! ## Loop step equations -/

/-- A model turn without tool calls appends the assistant content and breaks
out of the loop, returning that content. -/
theorem chat_loop_cons_content {σ : Type} (client : MCPClient) (exec : Exec σ)
    (t : AssistantTurn) (rest : List (Except String AssistantTurn))
    (msgs : List Message) (st : σ) (ht : t.tool_calls.isEmpty = true) :
    chat_loop client exec (Except.ok t :: rest) msgs st
      = ChatResult.ok t.content
          (msgs ++ [Message.assistantContent t.content]) := by
  simp [chat_loop, ht]

/-- A model turn with tool calls whose dispatch completes re-enters the loop
on the remaining script with the updated conversation and provider state. -/
theorem chat_loop_cons_dispatch {σ : Type} (client : MCPClient)
    (exec : Exec σ) (t : AssistantTurn)
    (rest : List (Except String AssistantTurn)) (msgs ma : List Message)
    (st sa : σ) (ht : t.tool_calls.isEmpty = false)
    (hd : dispatch_turn client exec t.tool_calls msgs st
            = Except.ok (ma, sa)) :
    chat_loop client exec (Except.ok t :: rest) msgs st
      = chat_loop client exec rest ma sa := by
  simp [chat_loop, ht, hd]

/-- A model turn with tool calls whose dispatch raises propagates the
exception out of the loop. -/
theorem chat_loop_cons_dispatch_error {σ : Type} (client : MCPClient)
    (exec : Exec σ) (t : AssistantTurn)
    (rest : List (Except String AssistantTurn)) (msgs : List Message)
    (st : σ) (e : String) (ht : t.tool_calls.isEmpty = false)
    (hd : dispatch_turn client exec t.tool_calls msgs st = Except.error e) :
    chat_loop client exec (Except.ok t :: rest) msgs st
      = ChatResult.err e := by
  simp [chat_loop, ht, hd]

/-! ## Unknown tool names (C1) -/

/-- C1 counterexample: a run in which the model first requests a tool name no
registered server exposes, then answers plainly.  The run terminates normally
(it does not fail with any error, so in particular not with
`UnknownToolError`) and the updated conversation contains no tool-result
message at all: the unresolved request was silently dropped. -/
theorem unknown_tool_dropped_cex :
    chatWithTools egClient egExec
        [Except.ok { tool_calls := [egCallUnknown], content := "" },
         Except.ok { tool_calls := [], content := "done" }]
        (0 : Nat) []
      = ChatResult.ok "done"
          [Message.assistantToolCalls [⟨"call_3", "no-such-tool", "obj"⟩],
           Message.assistantContent "done"]
    ∧ toolResultIds
        [Message.assistantToolCalls [⟨"call_3", "no-such-tool", "obj"⟩],
         Message.assistantContent "done"] = [] :=
  ⟨rfl, rfl⟩

/-- C1 amended: when the model requests a tool name no registered server
exposes, no error is raised and no tool-result message is recorded; the
assistant tool-call message is still appended, the call is otherwise skipped,
and the loop re-invokes the model on the updated transcript (so a model that
keeps requesting unknown tools is re-invoked indefinitely and the run never
produces a result). -/
theorem unknown_tool_skipped {σ : Type} (client : MCPClient) (exec : Exec σ)
    (tc : ToolCall) (content : String)
    (rest : List (Except String AssistantTurn)) (msgs : List Message)
    (st : σ) (h : resolveTool client tc.name = none) :
    chat_loop client exec
        (Except.ok { tool_calls := [tc], content := content } :: rest) msgs st
      = chat_loop client exec rest
          (msgs ++ [Message.assistantToolCalls [tc.record]]) st := by
  apply chat_loop_cons_dispatch
  · rfl
  · simp only [dispatch_turn]
    rw [dispatch_tool_call_unresolved client exec msgs st tc h]

/-- C1 amended witness: the concrete unresolved call of the counterexample
is skipped and the loop proceeds to the next model turn. -/
theorem unknown_tool_skipped_witness :
    resolveTool egClient egCallUnknown.name = none
    ∧ chat_loop egClient egExec
        (Except.ok { tool_calls := [egCallUnknown], content := "" }
          :: [Except.ok { tool_calls := [], content := "done" }]) [] (0 : Nat)
      = chat_loop egClient egExec
          [Except.ok { tool_calls := [], content := "done" }]
          ([] ++ [Message.assistantToolCalls [egCallUnknown.record]])
          (0 : Nat) :=
  ⟨by decide,
    unknown_tool_skipped egClient egExec egCallUnknown ""
      [Except.ok { tool_calls := [], content := "done" }] [] (0 : Nat)
      (by decide)⟩

/-! ## Loop convergence (C3) -/

/-- With a tool boundary that never raises, dispatching a turn always
completes. -/
theorem dispatch_turn_total_ok {σ : Type} (client : MCPClient)
    (f : String → String → List (String × String) → σ → String × σ)
    (calls : List ToolCall) (msgs : List Message) (st : σ) :
    ∃ msgs1 st1,
      dispatch_turn client (totalExec f) calls msgs st
        = Except.ok (msgs1, st1) := by
  induction calls generalizing msgs st with
  | nil => exact ⟨msgs, st, rfl⟩
  | cons tc rest ih =>
    cases hres : resolveTool client tc.name with
    | none =>
      obtain ⟨m1, s1, hm⟩ :=
        ih (msgs ++ [Message.assistantToolCalls [tc.record]]) st
      refine ⟨m1, s1, ?_⟩
      simp only [dispatch_turn]
      rw [dispatch_tool_call_unresolved _ _ _ _ _ hres]
      exact hm
    | some sid =>
      cases hf : f sid tc.name (parse_tool_args tc.arguments) st with
      | mk r s2 =>
        obtain ⟨m1, s1, hm⟩ :=
          ih (msgs ++ [Message.assistantToolCalls [tc.record],
                       Message.tool tc.id r]) s2
        refine ⟨m1, s1, ?_⟩
        simp only [dispatch_turn]
        rw [dispatch_tool_call_resolved _ _ _ _ _ _ hres]
        simp only [totalExec, hf]
        exact hm

/-- A block of consecutive tool-requesting model turns is consumed one model
call per turn: the loop over `tcTurns ++ rest` runs the dispatches of all of
`tcTurns` and continues as the loop over `rest` from the accumulated
conversation and provider state, whatever `rest` is. -/
theorem chat_loop_consumes_tool_turns {σ : Type} (client : MCPClient)
    (f : String → String → List (String × String) → σ → String × σ)
    (tcTurns : List AssistantTurn) (msgs : List Message) (st : σ)
    (hturns : ∀ t ∈ tcTurns, t.tool_calls ≠ []) :
    ∃ msgs1 st1, ∀ rest,
      chat_loop client (totalExec f) (tcTurns.map Except.ok ++ rest) msgs st
        = chat_loop client (totalExec f) rest msgs1 st1 := by
  induction tcTurns generalizing msgs st with
  | nil => exact ⟨msgs, st, fun rest => rfl⟩
  | cons t ts ih =>
    obtain ⟨ma, sa, hd⟩ := dispatch_turn_total_ok client f t.tool_calls msgs st
    obtain ⟨m1, s1, hrec⟩ :=
      ih ma sa (fun u hu => hturns u (List.mem_cons_of_mem t hu))
    refine ⟨m1, s1, fun rest => ?_⟩
    have hne : t.tool_calls.isEmpty = false := by
      cases hcalls : t.tool_calls with
      | nil => exact absurd hcalls (hturns t (List.mem_cons_self t ts))
      | cons a b => rfl
    rw [List.map_cons, List.cons_append,
      chat_loop_cons_dispatch client (totalExec f) t _ msgs ma st sa hne hd]
    exact hrec rest

/-- C3: for any number of consecutive tool-requesting model turns followed by
a turn with no tool calls, the orchestration loop dispatches the requests
of every turn, re-invokes the model exactly once per model turn, and terminates at
the first turn without tool calls, returning its content — while the same run
cut off before that final turn is still awaiting another model call
(`outOfTurns`), i.e. a turn that again requests tools is again dispatched. -/
theorem loop_repeats_until_no_tool_calls {σ : Type} (client : MCPClient)
    (f : String → String → List (String × String) → σ → String × σ)
    (tcTurns : List AssistantTurn) (finalTurn : AssistantTurn)
    (msgs : List Message) (st : σ)
    (hsrv : client.servers.isEmpty = false)
    (hturns : ∀ t ∈ tcTurns, t.tool_calls ≠ [])
    (hfinal : finalTurn.tool_calls = []) :
    (∃ msgs1, ∀ extra,
      chatWithTools client (totalExec f)
          (tcTurns.map Except.ok ++ (Except.ok finalTurn :: extra)) st msgs
        = ChatResult.ok finalTurn.content msgs1)
    ∧ chatWithTools client (totalExec f) (tcTurns.map Except.ok) st msgs
        = ChatResult.outOfTurns := by
  obtain ⟨m1, s1, hloop⟩ :=
    chat_loop_consumes_tool_turns client f tcTurns msgs st hturns
  constructor
  · refine ⟨m1 ++ [Message.assistantContent finalTurn.content],
      fun extra => ?_⟩
    simp only [chatWithTools, hsrv, Bool.false_eq_true, if_false]
    rw [hloop (Except.ok finalTurn :: extra)]
    exact chat_loop_cons_content client (totalExec f) finalTurn extra m1 s1
      (by simp [hfinal])
  · simp only [chatWithTools, hsrv, Bool.false_eq_true, if_false]
    have hcut := hloop []
    rw [List.append_nil] at hcut
    rw [hcut]
    rfl

/-- C3 witness: one tool-requesting turn followed by a plain turn terminates
with the content of the plain turn (for any continuation of the script),
and the
same run without the plain turn is still awaiting the model. -/
theorem loop_repeats_until_no_tool_calls_witness :
    (∃ msgs1, ∀ extra,
      chatWithTools egClient (totalExec egExecFun)
          (([{ tool_calls := [egCallWeather], content := "" }]
              : List AssistantTurn).map Except.ok
            ++ (Except.ok ({ tool_calls := [], content := "all set" }
                  : AssistantTurn) :: extra)) (0 : Nat) []
        = ChatResult.ok "all set" msgs1)
    ∧ chatWithTools egClient (totalExec egExecFun)
        (([{ tool_calls := [egCallWeather], content := "" }]
            : List AssistantTurn).map Except.ok) (0 : Nat) []
        = ChatResult.outOfTurns :=
  loop_repeats_until_no_tool_calls egClient egExecFun
    [{ tool_calls := [egCallWeather], content := "" }]
    { tool_calls := [], content := "all set" } [] (0 : Nat)
    (by decide) (by decide) rfl

/-! ## Conversation is append-only (C6) and the result is the final
assistant message (C4) -/

/-- One dispatch step only appends to the conversation. -/
theorem dispatch_tool_call_append {σ : Type} (client : MCPClient)
    (exec : Exec σ) (msgs m1 : List Message) (st s1 : σ) (tc : ToolCall)
    (h : dispatch_tool_call client exec msgs st tc = Except.ok (m1, s1)) :
    ∃ tail, m1 = msgs ++ tail := by
  cases hres : resolveTool client tc.name with
  | none =>
    rw [dispatch_tool_call_unresolved _ _ _ _ _ hres] at h
    simp only [Except.ok.injEq, Prod.mk.injEq] at h
    exact ⟨[Message.assistantToolCalls [tc.record]], h.1.symm⟩
  | some sid =>
    rw [dispatch_tool_call_resolved _ _ _ _ _ _ hres] at h
    cases hexec : exec sid tc.name (parse_tool_args tc.arguments) st with
    | error e =>
      rw [hexec] at h
      simp at h
    | ok p =>
      obtain ⟨r, s2⟩ := p
      rw [hexec] at h
      simp only [Except.ok.injEq, Prod.mk.injEq] at h
      exact ⟨[Message.assistantToolCalls [tc.record], Message.tool tc.id r],
        h.1.symm⟩

/-- Dispatching a whole turn only appends to the conversation. -/
theorem dispatch_turn_append {σ : Type} (client : MCPClient) (exec : Exec σ)
    (calls : List ToolCall) (msgs m1 : List Message) (st s1 : σ)
    (h : dispatch_turn client exec calls msgs st = Except.ok (m1, s1)) :
    ∃ tail, m1 = msgs ++ tail := by
  induction calls generalizing msgs st with
  | nil =>
    simp only [dispatch_turn, Except.ok.injEq, Prod.mk.injEq] at h
    exact ⟨[], by simp [h.1]⟩
  | cons tc rest ih =>
    simp only [dispatch_turn] at h
    cases hd : dispatch_tool_call client exec msgs st tc with
    | error e =>
      rw [hd] at h
      simp at h
    | ok p =>
      obtain ⟨ma, sa⟩ := p
      rw [hd] at h
      obtain ⟨t1, ht1⟩ := dispatch_tool_call_append _ _ _ _ _ _ _ hd
      obtain ⟨t2, ht2⟩ := ih _ _ h
      exact ⟨t1 ++ t2, by rw [ht2, ht1, List.append_assoc]⟩

/-- The loop only appends to the conversation it was given. -/
theorem chat_loop_append {σ : Type} (client : MCPClient) (exec : Exec σ)
    (script : List (Except String AssistantTurn)) (msgs msgs2 : List Message)
    (st : σ) (text : String)
    (h : chat_loop client exec script msgs st = ChatResult.ok text msgs2) :
    ∃ tail, msgs2 = msgs ++ tail := by
  induction script generalizing msgs st with
  | nil => simp [chat_loop] at h
  | cons turn rest ih =>
    cases turn with
    | error e => simp [chat_loop] at h
    | ok t =>
      cases hempty : t.tool_calls.isEmpty with
      | true =>
        rw [chat_loop_cons_content _ _ _ _ _ _ hempty] at h
        simp only [ChatResult.ok.injEq] at h
        exact ⟨[Message.assistantContent t.content], h.2.symm⟩
      | false =>
        cases hd : dispatch_turn client exec t.tool_calls msgs st with
        | error e =>
          rw [chat_loop_cons_dispatch_error _ _ _ _ _ _ _ hempty hd] at h
          cases h
        | ok p =>
          obtain ⟨ma, sa⟩ := p
          rw [chat_loop_cons_dispatch _ _ _ _ _ _ _ _ hempty hd] at h
          obtain ⟨t1, ht1⟩ := dispatch_turn_append _ _ _ _ _ _ _ hd
          obtain ⟨t2, ht2⟩ := ih _ _ h
          exact ⟨t1 ++ t2, by rw [ht2, ht1, List.append_assoc]⟩

/-- C6: a terminating orchestration run only appends to the conversation it
was handed: the input message sequence is an initial segment of the updated
conversation — nothing is reordered, modified or deleted. -/
theorem conversation_append_only {σ : Type} (client : MCPClient)
    (exec : Exec σ) (script : List (Except String AssistantTurn))
    (msgs msgs2 : List Message) (st : σ) (text : String)
    (h : chatWithTools client exec script st msgs = ChatResult.ok text msgs2) :
    ∃ tail, msgs2 = msgs ++ tail := by
  unfold chatWithTools at h
  by_cases hs : client.servers.isEmpty
  · rw [if_pos hs] at h
    cases h
  · rw [if_neg hs] at h
    exact chat_loop_append _ _ _ _ _ _ _ h

/-- C6 witness: a concrete run starting from a non-empty conversation returns
it extended by a tail. -/
theorem conversation_append_only_witness :
    chatWithTools egClient egExec
        [Except.ok { tool_calls := [egCallWeather], content := "" },
         Except.ok { tool_calls := [], content := "bye" }]
        (0 : Nat) [Message.user "hi"]
      = ChatResult.ok "bye"
          [Message.user "hi",
           Message.assistantToolCalls [⟨"call_1", "get-weather", "obj"⟩],
           Message.tool "call_1" "a:get-weather",
           Message.assistantContent "bye"]
    ∧ ∃ tail,
        [Message.user "hi",
         Message.assistantToolCalls [⟨"call_1", "get-weather", "obj"⟩],
         Message.tool "call_1" "a:get-weather",
         Message.assistantContent "bye"]
          = [Message.user "hi"] ++ tail :=
  ⟨rfl,
    conversation_append_only egClient egExec
      [Except.ok { tool_calls := [egCallWeather], content := "" },
       Except.ok { tool_calls := [], content := "bye" }]
      [Message.user "hi"]
      [Message.user "hi",
       Message.assistantToolCalls [⟨"call_1", "get-weather", "obj"⟩],
       Message.tool "call_1" "a:get-weather",
       Message.assistantContent "bye"]
      (0 : Nat) "bye" rfl⟩

/-- The text returned by the loop is the content of the final appended assistant
message. -/
theorem chat_loop_last {σ : Type} (client : MCPClient) (exec : Exec σ)
    (script : List (Except String AssistantTurn)) (msgs msgs2 : List Message)
    (st : σ) (text : String)
    (h : chat_loop client exec script msgs st = ChatResult.ok text msgs2) :
    msgs2.getLast? = some (Message.assistantContent text) := by
  induction script generalizing msgs st with
  | nil => simp [chat_loop] at h
  | cons turn rest ih =>
    cases turn with
    | error e => simp [chat_loop] at h
    | ok t =>
      cases hempty : t.tool_calls.isEmpty with
      | true =>
        rw [chat_loop_cons_content _ _ _ _ _ _ hempty] at h
        simp only [ChatResult.ok.injEq] at h
        rw [← h.2, ← h.1]
        exact List.getLast?_concat _
      | false =>
        cases hd : dispatch_turn client exec t.tool_calls msgs st with
        | error e =>
          rw [chat_loop_cons_dispatch_error _ _ _ _ _ _ _ hempty hd] at h
          cases h
        | ok p =>
          obtain ⟨ma, sa⟩ := p
          rw [chat_loop_cons_dispatch _ _ _ _ _ _ _ _ hempty hd] at h
          exact ih _ _ h

/-- C4: a terminating orchestration run returns, together with the updated
conversation, exactly the content of the most recent assistant plain-content
message — the last message of the updated conversation is an assistant
message carrying the returned text. -/
theorem run_returns_last_assistant_content {σ : Type} (client : MCPClient)
    (exec : Exec σ) (script : List (Except String AssistantTurn))
    (msgs msgs2 : List Message) (st : σ) (text : String)
    (h : chatWithTools client exec script st msgs = ChatResult.ok text msgs2) :
    msgs2.getLast? = some (Message.assistantContent text) := by
  unfold chatWithTools at h
  by_cases hs : client.servers.isEmpty
  · rw [if_pos hs] at h
    cases h
  · rw [if_neg hs] at h
    exact chat_loop_last _ _ _ _ _ _ _ h

/-- C4 witness: a concrete two-turn run returns the content of the final
turn and
ends the conversation with exactly that assistant message. -/
theorem run_returns_last_assistant_content_witness :
    chatWithTools egClient egExec
        [Except.ok { tool_calls := [egCallAqi], content := "" },
         Except.ok { tool_calls := [], content := "stay in" }]
        (0 : Nat) []
      = ChatResult.ok "stay in"
          [Message.assistantToolCalls [⟨"call_2", "get-aqi", ""⟩],
           Message.tool "call_2" "b:get-aqi",
           Message.assistantContent "stay in"]
    ∧ ([Message.assistantToolCalls [⟨"call_2", "get-aqi", ""⟩],
        Message.tool "call_2" "b:get-aqi",
        Message.assistantContent "stay in"] : List Message).getLast?
      = some (Message.assistantContent "stay in") :=
  ⟨rfl,
    run_returns_last_assistant_content egClient egExec
      [Except.ok { tool_calls := [egCallAqi], content := "" },
       Except.ok { tool_calls := [], content := "stay in" }]
      []
      [Message.assistantToolCalls [⟨"call_2", "get-aqi", ""⟩],
       Message.tool "call_2" "b:get-aqi",
       Message.assistantContent "stay in"]
      (0 : Nat) "stay in" rfl⟩

/-! ## The send_user_message shell (C8, C9, C10) -/

/-- C8: whenever an invocation of `send_user_message` terminates — by normal
completion or by any caught error from connection, model calls or tool
dispatch — the `finally` block has run `mcp_client.cleanup()` (closing every
provider session opened during the invocation) before the result or error
text reaches the caller. -/
theorem cleanup_always_runs {σ : Type} (env : SendEnv σ) (um : String)
    (st : AppState) (o : SendOutcome)
    (h : send_user_message env um st = some o) : o.cleaned = true := by
  simp only [send_user_message] at h
  split at h
  · simp only [Option.some.injEq] at h
    rw [← h]
  · split at h
    · cases h
    · simp only [Option.some.injEq] at h
      rw [← h]
    · simp only [Option.some.injEq] at h
      rw [← h]

/-- C8 witness: a concrete successful invocation reports the cleanup ran. -/
theorem cleanup_always_runs_witness :
    ∃ o, send_user_message egOkEnv "hi"
        { message_history := [], latest_model_response := "init" } = some o
      ∧ o.cleaned = true :=
  ⟨_, rfl,
    cleanup_always_runs egOkEnv "hi"
      { message_history := [], latest_model_response := "init" } _ rfl⟩

/-- C9: `send_user_message` never propagates an exception: if the server
connection raises, or the orchestration run raises (model call or tool
dispatch), the invocation still returns, its return value is
`Error processing message: ` followed by the exception text, and that same
string is appended to the message history as an assistant message. -/
theorem errors_caught_and_recorded {σ : Type} (env : SendEnv σ) (um : String)
    (st : AppState) (e : String)
    (h : env.connect = Except.error e
      ∨ ∃ tools, env.connect = Except.ok tools
          ∧ chatWithTools (register_server MCPClient.empty "weather" tools)
              env.exec env.script env.execInit (pre_history st um)
            = ChatResult.err e) :
    ∃ o, send_user_message env um st = some o
      ∧ o.response = error_response e
      ∧ o.state.message_history.getLast?
          = some (Message.assistantContent (error_response e)) := by
  cases h with
  | inl hc =>
    refine ⟨{ response := error_response e,
              state := { message_history :=
                           pre_history st um
                             ++ [Message.assistantContent (error_response e)],
                         latest_model_response := error_response e },
              cleaned := true }, ?_, rfl, ?_⟩
    · simp only [send_user_message, hc]
    · exact List.getLast?_concat _
  | inr hex =>
    obtain ⟨tools, hc, hchat⟩ := hex
    refine ⟨{ response := error_response e,
              state := { message_history :=
                           pre_history st um
                             ++ [Message.assistantContent (error_response e)],
                         latest_model_response := error_response e },
              cleaned := true }, ?_, rfl, ?_⟩
    · simp only [send_user_message, hc, hchat]
    · exact List.getLast?_concat _

/-- C9 witness: a connection failure is caught, reported as an
`Error processing message:` response, and recorded in the history. -/
theorem errors_caught_and_recorded_witness :
    ∃ o, send_user_message egFailEnv "hi"
          { message_history := [], latest_model_response := "init" } = some o
      ∧ o.response = error_response "boom"
      ∧ o.state.message_history.getLast?
          = some (Message.assistantContent (error_response "boom")) :=
  errors_caught_and_recorded egFailEnv "hi"
    { message_history := [], latest_model_response := "init" } "boom"
    (Or.inl rfl)

/-- C10: a successful invocation of `send_user_message` grows the global
message history by exactly the system message (first invocation only), the
new user message and the final assistant response: the orchestration ran on a
copy of the history, and the copy — with its intermediate assistant-tool-call
and tool-result messages `msgs2` — is discarded, never reaching
`message_history`. -/
theorem history_gains_only_final {σ : Type} (env : SendEnv σ) (um : String)
    (st : AppState) (tools : List Tool) (text : String)
    (msgs2 : List Message)
    (hc : env.connect = Except.ok tools)
    (hchat : chatWithTools (register_server MCPClient.empty "weather" tools)
        env.exec env.script env.execInit (pre_history st um)
      = ChatResult.ok text msgs2) :
    send_user_message env um st
      = some { response := text,
               state := { message_history :=
                            pre_history st um
                              ++ [Message.assistantContent text],
                          latest_model_response := text },
               cleaned := true } := by
  simp only [send_user_message, hc, hchat]

/-- C10 witness: a concrete first invocation with one tool round ends with a
history of exactly system, user and final assistant message — none of the
intermediate tool-call or tool-result messages of the working copy of the
run. -/
theorem history_gains_only_final_witness :
    send_user_message egOkEnv "hi"
        { message_history := [], latest_model_response := "init" }
      = some { response := "final answer",
               state := { message_history :=
                            [Message.system gettingReadyInstruction,
                             Message.user "hi",
                             Message.assistantContent "final answer"],
                          latest_model_response := "final answer" },
               cleaned := true } :=
  history_gains_only_final egOkEnv "hi"
    { message_history := [], latest_model_response := "init" }
    [egWeatherTool, egAqiTool] "final answer" _ rfl rfl
